/-
Verification of the ore-framework component rendering engine.

Shallow embedding of the JavaScript source (classes/Vue.js, classes/Db.js,
www/index.js) into Lean 4.  Strings are modelled as lists of characters,
JavaScript objects as association lists with last-binding-wins lookup, the
filesystem as a boolean membership function on paths, and the outcome of a
dynamic `import` as an explicit oracle parameter.
-/
import Mathlib

/-- JavaScript strings are modelled as lists of characters. -/
abbrev Str := List Char

/-- Character class `[A-Z]` used by the component-scan and kebab-case regexes. -/
def isUpperAZ (c : Char) : Bool := 'A' ≤ c && c ≤ 'Z'

/-- Character class `[a-z]`. -/
def isLowerAZ (c : Char) : Bool := 'a' ≤ c && c ≤ 'z'

/-- Character class `[0-9]`. -/
def isDigit09 (c : Char) : Bool := '0' ≤ c && c ≤ '9'

/-- Character class `[a-zA-Z0-9]` (the tail of a component tag name). -/
def isAlnumAZ (c : Char) : Bool := isUpperAZ c || isLowerAZ c || isDigit09 c

/-
Embedding of `compNameToFolderId` (classes/Vue.js lines 54-56):

    name.replace(/([a-z0-9])([A-Z])/g, '$1-$2').toLowerCase()

The global replace scans left to right; a replaced pair cannot overlap the
start of the next match (the second character of a match is uppercase and
therefore never matches `[a-z0-9]`), so the replace is equivalent to the
local two-character scan below.
-/

/-- Global replace of `([a-z0-9])([A-Z])` by `$1-$2`: insert a dash between a
lowercase-or-digit character and an immediately following uppercase letter. -/
def kebabSplit : Str → Str
  | [] => []
  | [c] => [c]
  | a :: b :: rest =>
      if (isLowerAZ a || isDigit09 a) && isUpperAZ b then
        a :: '-' :: kebabSplit (b :: rest)
      else
        a :: kebabSplit (b :: rest)

/-- Embedding of `compNameToFolderId`: the dash-inserting replace followed by
`toLowerCase()`. -/
def compNameToFolderId (name : Str) : Str := (kebabSplit name).map Char.toLower

/-- Written from the claim's words (C6): split the name exactly at
lowercase-letter→uppercase-letter boundaries and lower-case the result.
A digit before an uppercase letter is not such a boundary. -/
def claimKebabSplit : Str → Str
  | [] => []
  | [c] => [c]
  | a :: b :: rest =>
      if isLowerAZ a && isUpperAZ b then
        a :: '-' :: claimKebabSplit (b :: rest)
      else
        a :: claimKebabSplit (b :: rest)

/-- On-disk identity following the claim's words exactly. -/
def claimFolderId (name : Str) : Str := (claimKebabSplit name).map Char.toLower

/-- A boundary of the amended description: a lowercase letter or a digit
immediately followed by an uppercase letter. -/
def boundaryLD (p c : Char) : Bool := (isLowerAZ p || isDigit09 p) && isUpperAZ c

/-- Dash insertion described pairwise: for every adjacent pair of the name,
emit the second character, preceded by a dash when the pair is a boundary. -/
def dashPairs : List (Char × Char) → Str
  | [] => []
  | (p, c) :: rest =>
      if boundaryLD p c then '-' :: c :: dashPairs rest else c :: dashPairs rest

/-- The amended splitting rule, phrased over the list of adjacent pairs. -/
def amendedSplit : Str → Str
  | [] => []
  | c :: rest => c :: dashPairs ((c :: rest).zip rest)

theorem kebabSplit_eq_amendedSplit (l : Str) : kebabSplit l = amendedSplit l := by
  induction l with
  | nil => rfl
  | cons a t ih =>
    cases t with
    | nil => rfl
    | cons b rest =>
      show kebabSplit (a :: b :: rest) = amendedSplit (a :: b :: rest)
      have hz : (a :: b :: rest).zip (b :: rest) = (a, b) :: (b :: rest).zip rest := rfl
      have htail : kebabSplit (b :: rest) = b :: dashPairs ((b :: rest).zip rest) := by
        rw [ih]; rfl
      by_cases h : ((isLowerAZ a || isDigit09 a) && isUpperAZ b) = true
      · simp only [kebabSplit, amendedSplit, hz, dashPairs, boundaryLD, h, if_true, htail]
        rfl
      · simp only [kebabSplit, amendedSplit, hz, dashPairs, boundaryLD, h, if_false, htail]
        simp only [Bool.false_eq_true, if_false, List.zip]

/-- C6 counterexample: the code also splits at a digit→uppercase boundary.
For the discoverable component name `Sample2Counter` the code produces
`sample2-counter`, while splitting only at lowercase-letter→uppercase
boundaries (the claim's words) produces `sample2counter`. -/
theorem folderId_digit_counterexample :
    compNameToFolderId "Sample2Counter".data = "sample2-counter".data ∧
    claimFolderId "Sample2Counter".data = "sample2counter".data ∧
    compNameToFolderId "Sample2Counter".data ≠ claimFolderId "Sample2Counter".data := by
  refine ⟨by decide, by decide, by decide⟩

/-- C6 (amended): the on-disk identity is obtained by splitting the name at
every boundary where a lowercase letter **or a digit** is followed by an
uppercase letter, then lower-casing; in particular `SampleCounter` maps to
`sample-counter` and `Sample2Counter` maps to `sample2-counter`. -/
theorem folderId_amended (name : Str) :
    compNameToFolderId name = (amendedSplit name).map Char.toLower ∧
    compNameToFolderId "SampleCounter".data = "sample-counter".data ∧
    compNameToFolderId "Sample2Counter".data = "sample2-counter".data := by
  refine ⟨by rw [compNameToFolderId, kebabSplit_eq_amendedSplit], by decide, by decide⟩

/-
Embedding of JavaScript objects: association lists where a later binding
shadows an earlier one, matching both object-literal construction and the
spread operator (a spread of two objects is modelled by list append).
-/

/-- Values stored in the modelled JavaScript objects. -/
inductive JsVal
  | num (n : Int)
  | str (s : Str)
  deriving DecidableEq

/-- A JavaScript object: an association list, last binding wins. -/
abbrev JsObj := List (String × JsVal)

/-- Property lookup on a modelled object: the last binding for a key wins,
as with successive assignment into an object literal. -/
def objGet : JsObj → String → Option JsVal
  | [], _ => none
  | (k, v) :: rest, key =>
      match objGet rest key with
      | some w => some w
      | none => if k = key then some v else none

theorem objGet_append (a b : JsObj) (k : String) :
    objGet (a ++ b) k =
      match objGet b k with
      | some w => some w
      | none => objGet a k := by
  induction a with
  | nil => simp only [List.nil_append]; cases objGet b k <;> rfl
  | cons p rest ih =>
    obtain ⟨k', v⟩ := p
    show objGet ((k', v) :: (rest ++ b)) k = _
    simp only [objGet, ih]
    cases objGet b k <;> cases objGet rest k <;> rfl

/-- Embedding of the composed `setup` of the runtime component built in
`Vue.render` (classes/Vue.js lines 150-157): the returned context is the
spread of a copy of the assignment snapshot with the script setup result,
where a missing setup or a null setup result contributes the empty object. -/
def composeSetup (assignments : JsObj) (sfcResult : Option JsObj) : JsObj :=
  assignments ++ sfcResult.getD []

/-- C1: for a component whose script setup returns an object, the rendering
context is the union of the Assignment Store snapshot and the setup result,
with the setup result winning on key conflicts; with no setup the context is
exactly the snapshot; concretely, store {x: 0, y: 2} with setup result {x: 1}
composes to x = 1, y = 2. -/
theorem setup_context_overrides (store sfc : JsObj) :
    (∀ k, objGet (composeSetup store (some sfc)) k =
        match objGet sfc k with
        | some v => some v
        | none => objGet store k) ∧
    composeSetup store none = store ∧
    objGet (composeSetup [("x", JsVal.num 0), ("y", JsVal.num 2)]
      (some [("x", JsVal.num 1)])) "x" = some (JsVal.num 1) ∧
    objGet (composeSetup [("x", JsVal.num 0), ("y", JsVal.num 2)]
      (some [("x", JsVal.num 1)])) "y" = some (JsVal.num 2) := by
  refine ⟨fun k => objGet_append store sfc k, List.append_nil store, by decide, by decide⟩

/-
Embedding of the database collaborator (classes/Db.js).
-/

/-- Rows returned by the database driver. -/
structure DbRow where
  rowId : Nat
  deriving DecidableEq

/-- Character class `[a-zA-Z_]`, the first character of a named placeholder. -/
def isIdentStartJs (c : Char) : Bool := isLowerAZ c || isUpperAZ c || c = '_'

/-- Character class `[a-zA-Z0-9_]`, the tail of a named placeholder. -/
def isIdentCharJs (c : Char) : Bool := isIdentStartJs c || isDigit09 c

/-- Scanner state of the placeholder-replacing pass: outside a placeholder,
just after a `:`, or inside a placeholder name (accumulated reversed). -/
inductive BqState
  | plain
  | colon
  | name (acc : Str)

/-- One left-to-right pass of the global replace of
`:([a-zA-Z_][a-zA-Z0-9_]*)` by `?`: returns the rewritten sql text and the
placeholder names in scan order. -/
def bqAux : Str → BqState → Str × List Str
  | [], BqState.plain => ([], [])
  | [], BqState.colon => ([':'], [])
  | [], BqState.name acc => (['?'], [acc.reverse])
  | c :: rest, BqState.plain =>
      if c = ':' then bqAux rest BqState.colon
      else
        let (s, ns) := bqAux rest BqState.plain
        (c :: s, ns)
  | c :: rest, BqState.colon =>
      if isIdentStartJs c then bqAux rest (BqState.name [c])
      else if c = ':' then
        let (s, ns) := bqAux rest BqState.colon
        (':' :: s, ns)
      else
        let (s, ns) := bqAux rest BqState.plain
        (':' :: c :: s, ns)
  | c :: rest, BqState.name acc =>
      if isIdentCharJs c then bqAux rest (BqState.name (c :: acc))
      else if c = ':' then
        let (s, ns) := bqAux rest BqState.colon
        ('?' :: s, acc.reverse :: ns)
      else
        let (s, ns) := bqAux rest BqState.plain
        ('?' :: c :: s, acc.reverse :: ns)

/-- Resolve the scanned placeholder names against `params` in scan order;
the first unbound name raises the missing-parameter error of the source. -/
def resolveParams : List Str → JsObj → Except String (List JsVal)
  | [], _ => Except.ok []
  | n :: rest, params =>
      match objGet params (String.mk n) with
      | none => Except.error ("Missing named parameter :" ++ String.mk n)
      | some v =>
          match resolveParams rest params with
          | Except.error e => Except.error e
          | Except.ok vs => Except.ok (v :: vs)

/-- Embedding of `Db._buildQuery` (classes/Db.js lines 90-100): replace each
`:name` placeholder by `?`, collecting the bound values in scan order, and
throw on the first placeholder whose name is not in `params`. -/
def buildQuery (query : Str) (params : JsObj) : Except String (Str × List JsVal) :=
  match resolveParams (bqAux query BqState.plain).2 params with
  | Except.error e => Except.error e
  | Except.ok vals => Except.ok ((bqAux query BqState.plain).1, vals)

/-- Embedding of `Db.fetchAllRows` (classes/Db.js lines 39-45): builds the
positional query (propagating a missing-parameter throw) and returns the
driver stub's empty row list. -/
def fetchAllRows (query : Str) (params : JsObj) : Except String (List DbRow) :=
  match buildQuery query params with
  | Except.error e => Except.error e
  | Except.ok _ => Except.ok []

/-- Embedding of `Db.fetchRow` (classes/Db.js lines 53-55): awaits
`fetchAllRows` on the same query and parameters and returns `rows[0] ?? null`. -/
def fetchRow (query : Str) (params : JsObj) : Except String (Option DbRow) :=
  match fetchAllRows query params with
  | Except.error e => Except.error e
  | Except.ok rows => Except.ok rows.head?

/-- C10: for every query and parameter set, `fetchRow` returns exactly the
first element of the row array `fetchAllRows` returns for the same inputs,
or null when that array is empty; a throw from `fetchAllRows` propagates. -/
theorem fetchRow_first_of_fetchAllRows (q : Str) (p : JsObj) :
    fetchRow q p = (fetchAllRows q p).map List.head? ∧
    (∀ rows, fetchAllRows q p = Except.ok rows → fetchRow q p = Except.ok rows.head?) ∧
    (∀ rows, fetchAllRows q p = Except.ok rows → rows = [] →
      fetchRow q p = Except.ok none) := by
  refine ⟨?_, ?_, ?_⟩
  · show (match fetchAllRows q p with
      | Except.error e => Except.error e
      | Except.ok rows => Except.ok rows.head?) = _
    cases fetchAllRows q p <;> rfl
  · intro rows h
    show (match fetchAllRows q p with
      | Except.error e => Except.error e
      | Except.ok rows => Except.ok rows.head?) = _
    rw [h]
  · intro rows h he
    subst he
    show (match fetchAllRows q p with
      | Except.error e => Except.error e
      | Except.ok rows => Except.ok rows.head?) = _
    rw [h]
    rfl

/-- Witness for C10 at a concrete query: the query has one bound placeholder,
`fetchAllRows` returns the empty array and `fetchRow` returns null. -/
theorem fetchRow_first_witness :
    fetchRow "SELECT name FROM t WHERE id = :id".data [("id", JsVal.num 1)] =
      Except.ok none := by
  exact (fetchRow_first_of_fetchAllRows "SELECT name FROM t WHERE id = :id".data
    [("id", JsVal.num 1)]).2.2 [] rfl rfl

/-
Embedding of `scanSubComponents` (classes/Vue.js lines 66-80).

The global exec loop of `/<([A-Z][a-zA-Z0-9]*)/g` scans the template left to
right, matching a `<` immediately followed by an uppercase letter and then a
maximal run of letters and digits; matches never overlap.  It is embedded as
a one-character-per-step state machine.  The JS `Set` keeps first-appearance
insertion order, embedded as `dedupFirst`.
-/

/-- Scanner state: outside any candidate tag, just after a `<`, or inside a
tag name (accumulated reversed). -/
inductive ScState
  | plain
  | lt
  | tag (acc : Str)

/-- One pass of the global tag-name regex over the template, emitting the
captured names in match order (with duplicates). -/
def scanAux : Str → ScState → List Str
  | [], ScState.plain => []
  | [], ScState.lt => []
  | [], ScState.tag acc => [acc.reverse]
  | c :: rest, ScState.plain =>
      if c = '<' then scanAux rest ScState.lt else scanAux rest ScState.plain
  | c :: rest, ScState.lt =>
      if isUpperAZ c then scanAux rest (ScState.tag [c])
      else if c = '<' then scanAux rest ScState.lt
      else scanAux rest ScState.plain
  | c :: rest, ScState.tag acc =>
      if isAlnumAZ c then scanAux rest (ScState.tag (c :: acc))
      else if c = '<' then acc.reverse :: scanAux rest ScState.lt
      else acc.reverse :: scanAux rest ScState.plain

/-- All raw regex captures of the template, in first-to-last match order. -/
def scanNames (tmpl : Str) : List Str := scanAux tmpl ScState.plain

/-- A syntactically valid component tag name: an uppercase letter followed by
letters and digits. -/
def goodNameB : Str → Bool
  | [] => false
  | c :: cs => isUpperAZ c && cs.all isAlnumAZ

/-- State invariant of the scanner: a partially accumulated tag name is
already a valid name once reversed. -/
def stInvB : ScState → Bool
  | ScState.plain => true
  | ScState.lt => true
  | ScState.tag acc => goodNameB acc.reverse

theorem goodNameB_append_alnum (xs : Str) (c : Char) (hx : goodNameB xs = true)
    (hc : isAlnumAZ c = true) : goodNameB (xs ++ [c]) = true := by
  cases xs with
  | nil => exact absurd hx (by decide)
  | cons h t =>
    simp only [goodNameB, Bool.and_eq_true, List.all_eq_true] at hx
    simp only [List.cons_append, goodNameB, Bool.and_eq_true, List.all_eq_true]
    refine ⟨hx.1, fun x hxm => ?_⟩
    rcases List.mem_append.mp hxm with h1 | h1
    · exact hx.2 x h1
    · rcases List.mem_singleton.mp h1 with rfl
      exact hc

theorem scanAux_names_good (l : Str) : ∀ (st : ScState), stInvB st = true →
    ∀ n ∈ scanAux l st, goodNameB n = true := by
  induction l with
  | nil =>
    intro st hst n hn
    cases st with
    | plain => cases hn
    | lt => cases hn
    | tag acc =>
      rcases List.mem_singleton.mp hn with rfl
      exact hst
  | cons c rest ih =>
    intro st hst n hn
    cases st with
    | plain =>
      by_cases h : c = '<'
      · simp only [scanAux, h, if_true] at hn
        exact ih ScState.lt rfl n hn
      · simp only [scanAux, h, if_false] at hn
        exact ih ScState.plain rfl n hn
    | lt =>
      by_cases h1 : isUpperAZ c = true
      · simp only [scanAux, h1, if_true] at hn
        refine ih (ScState.tag [c]) ?_ n hn
        simp only [stInvB, List.reverse_singleton, goodNameB, List.all_nil,
          Bool.and_true, h1]
      · by_cases h2 : c = '<'
        · simp only [scanAux, h1, h2, if_true, if_false] at hn
          exact ih ScState.lt rfl n hn
        · simp only [scanAux, h1, h2, if_false] at hn
          exact ih ScState.plain rfl n hn
    | tag acc =>
      by_cases h1 : isAlnumAZ c = true
      · simp only [scanAux, h1, if_true] at hn
        refine ih (ScState.tag (c :: acc)) ?_ n hn
        simp only [stInvB, List.reverse_cons]
        exact goodNameB_append_alnum acc.reverse c hst h1
      · by_cases h2 : c = '<'
        · simp only [scanAux, h1, h2, if_true, if_false] at hn
          cases hn with
          | head => exact hst
          | tail _ hn => exact ih ScState.lt rfl n hn
        · simp only [scanAux, h1, h2, if_false] at hn
          cases hn with
          | head => exact hst
          | tail _ hn => exact ih ScState.plain rfl n hn

/-- Deduplication with a seen-set, keeping the first occurrence of each
element — the insertion-order semantics of a JS `Set`. -/
def dedupAux (seen : List Str) : List Str → List Str
  | [] => []
  | a :: l => if a ∈ seen then dedupAux seen l else a :: dedupAux (a :: seen) l

/-- First-occurrence deduplication of a list of names. -/
def dedupFirst (l : List Str) : List Str := dedupAux [] l

theorem mem_dedupAux (l : List Str) : ∀ (seen : List Str) (x : Str),
    x ∈ dedupAux seen l ↔ x ∈ l ∧ x ∉ seen := by
  induction l with
  | nil => intro seen x; simp [dedupAux]
  | cons a l ih =>
    intro seen x
    by_cases h : a ∈ seen
    · simp only [dedupAux, h, if_true, ih, List.mem_cons]
      constructor
      · rintro ⟨h1, h2⟩; exact ⟨Or.inr h1, h2⟩
      · rintro ⟨h1 | h1, h2⟩
        · exact absurd h (h1 ▸ h2)
        · exact ⟨h1, h2⟩
    · simp only [dedupAux, h, if_false, List.mem_cons, ih, List.mem_cons]
      constructor
      · rintro (rfl | ⟨h1, h2⟩)
        · exact ⟨Or.inl rfl, h⟩
        · exact ⟨Or.inr h1, fun hx => h2 (Or.inr hx)⟩
      · rintro ⟨rfl | h1, h2⟩
        · exact Or.inl rfl
        · by_cases hxa : x = a
          · exact Or.inl hxa
          · exact Or.inr ⟨h1, fun hx => (by rcases hx with rfl | hx; exact hxa rfl; exact h2 hx)⟩

theorem nodup_dedupAux (l : List Str) : ∀ (seen : List Str), (dedupAux seen l).Nodup := by
  induction l with
  | nil => intro seen; exact List.nodup_nil
  | cons a l ih =>
    intro seen
    by_cases h : a ∈ seen
    · simp only [dedupAux, h, if_true]; exact ih seen
    · simp only [dedupAux, h, if_false]
      refine List.nodup_cons.mpr ⟨fun hmem => ?_, ih (a :: seen)⟩
      exact ((mem_dedupAux l (a :: seen) a).mp hmem).2 (List.mem_cons_self a seen)

/-- Index of the first occurrence of a name in a list of names. -/
def idxOfD (x : Str) : List Str → Nat
  | [] => 0
  | a :: l => if x = a then 0 else idxOfD x l + 1

theorem idxOfD_cons_self (a : Str) (l : List Str) : idxOfD a (a :: l) = 0 := by
  simp [idxOfD]

theorem idxOfD_cons_of_ne (x a : Str) (l : List Str) (h : x ≠ a) :
    idxOfD x (a :: l) = idxOfD x l + 1 := by
  simp [idxOfD, h]

theorem pairwise_idxOfD_dedupAux (l : List Str) : ∀ (seen : List Str),
    List.Pairwise (fun a b => idxOfD a l < idxOfD b l) (dedupAux seen l) := by
  induction l with
  | nil => intro seen; exact List.Pairwise.nil
  | cons a l ih =>
    intro seen
    by_cases h : a ∈ seen
    · simp only [dedupAux, h, if_true]
      refine ((ih seen).imp_of_mem ?_)
      intro x y hx hy hlt
      have hxm := (mem_dedupAux l seen x).mp hx
      have hym := (mem_dedupAux l seen y).mp hy
      have hxa : x ≠ a := fun he => hxm.2 (he ▸ h)
      have hya : y ≠ a := fun he => hym.2 (he ▸ h)
      rw [idxOfD_cons_of_ne x a l hxa, idxOfD_cons_of_ne y a l hya]
      omega
    · simp only [dedupAux, h, if_false]
      refine List.pairwise_cons.mpr ⟨?_, ?_⟩
      · intro b hb
        have hbm := (mem_dedupAux l (a :: seen) b).mp hb
        have hba : b ≠ a := fun he => hbm.2 (he ▸ List.mem_cons_self a seen)
        rw [idxOfD_cons_self, idxOfD_cons_of_ne b a l hba]
        omega
      · refine ((ih (a :: seen)).imp_of_mem ?_)
        intro x y hx hy hlt
        have hxm := (mem_dedupAux l (a :: seen) x).mp hx
        have hym := (mem_dedupAux l (a :: seen) y).mp hy
        have hxa : x ≠ a := fun he => hxm.2 (he ▸ List.mem_cons_self a seen)
        have hya : y ≠ a := fun he => hym.2 (he ▸ List.mem_cons_self a seen)
        rw [idxOfD_cons_of_ne x a l hxa, idxOfD_cons_of_ne y a l hya]
        omega

/-- One resolved sub-component entry: the tag name, its kebab-case folder
identity, and the mapped on-disk location of its SFC source. -/
structure SubComp where
  compName : Str
  folderId : Str
  sfcPath : Str
  deriving DecidableEq

/-- Embedding of `path.join(_componentsRoot, id, 'index.vue')`. -/
def sfcPathJoin (root id : Str) : Str := root ++ '/' :: id ++ "/index.vue".data

/-- Embedding of `scanSubComponents` (classes/Vue.js lines 66-80): collect
the regex captures into a first-appearance-ordered set, map each name to its
folder identity and on-disk path, and keep only entries whose path exists
according to the filesystem oracle `fsEx`. -/
def scanSubComponents (root : Str) (fsEx : Str → Bool) (tmpl : Str) : List SubComp :=
  ((dedupFirst (scanNames tmpl)).map fun n =>
      SubComp.mk n (compNameToFolderId n) (sfcPathJoin root (compNameToFolderId n))).filter
    fun s => fsEx s.sfcPath

theorem scanSub_names_eq (root : Str) (fsEx : Str → Bool) (L : List Str) :
    (((L.map fun n =>
        SubComp.mk n (compNameToFolderId n) (sfcPathJoin root (compNameToFolderId n))).filter
      fun s => fsEx s.sfcPath).map SubComp.compName) =
      L.filter fun n => fsEx (sfcPathJoin root (compNameToFolderId n)) := by
  induction L with
  | nil => rfl
  | cons a L ih =>
    by_cases h : fsEx (sfcPathJoin root (compNameToFolderId a)) = true <;>
      simp [List.filter, h, ih]

/-- C5: scanning a template yields exactly one entry per distinct tag name
that starts with an uppercase letter followed by letters/digits, in
first-appearance order (pairwise increasing first-match index); every entry
passed the existence filter and carries the kebab-case folder identity;
lowercase-initial tags are never scanned, as the concrete template with
`<SampleCounter/>`, `<sample-counter/>` and `<SampleCounter/>` again shows. -/
theorem scan_subcomponents_spec (root : Str) (fsEx : Str → Bool) (t : Str) :
    ((scanSubComponents root fsEx t).map SubComp.compName).Nodup ∧
    (∀ s ∈ scanSubComponents root fsEx t,
        s.compName ∈ scanNames t ∧ goodNameB s.compName = true ∧
        fsEx s.sfcPath = true ∧ s.folderId = compNameToFolderId s.compName) ∧
    (∀ n ∈ scanNames t, fsEx (sfcPathJoin root (compNameToFolderId n)) = true →
        n ∈ (scanSubComponents root fsEx t).map SubComp.compName) ∧
    List.Pairwise (fun a b => idxOfD a (scanNames t) < idxOfD b (scanNames t))
      ((scanSubComponents root fsEx t).map SubComp.compName) ∧
    (scanSubComponents [] (fun _ => true)
        "<SampleCounter/><sample-counter/><SampleCounter/>".data).map SubComp.compName =
      ["SampleCounter".data] := by
  have hkey : (scanSubComponents root fsEx t).map SubComp.compName =
      (dedupFirst (scanNames t)).filter
        (fun n => fsEx (sfcPathJoin root (compNameToFolderId n))) :=
    scanSub_names_eq root fsEx (dedupFirst (scanNames t))
  refine ⟨?_, ?_, ?_, ?_, by decide⟩
  · rw [hkey]
    exact (nodup_dedupAux (scanNames t) []).filter _
  · intro s hs
    rcases List.mem_filter.mp hs with ⟨hmap, hfs⟩
    rcases List.mem_map.mp hmap with ⟨n, hnL, hfn⟩
    have hnn : n ∈ scanNames t := ((mem_dedupAux (scanNames t) [] n).mp hnL).1
    have hgood : goodNameB n = true := scanAux_names_good t ScState.plain rfl n hnn
    refine ⟨?_, ?_, hfs, ?_⟩
    · rw [← hfn]; exact hnn
    · rw [← hfn]; exact hgood
    · rw [← hfn]
  · intro n hn hfs
    rw [hkey]
    refine List.mem_filter.mpr ⟨?_, by simpa using hfs⟩
    exact (mem_dedupAux (scanNames t) [] n).mpr ⟨hn, by simp⟩
  · rw [hkey]
    exact (pairwise_idxOfD_dedupAux (scanNames t) []).filter _

/-- Witness for C5: on the concrete template the deduplicated, capitalized
tag `SampleCounter` is resolved (with an always-true existence oracle). -/
theorem scan_subcomponents_spec_witness :
    "SampleCounter".data ∈
      (scanSubComponents [] (fun _ => true)
        "<SampleCounter/><sample-counter/><SampleCounter/>".data).map SubComp.compName := by
  refine (scan_subcomponents_spec [] (fun _ => true)
    "<SampleCounter/><sample-counter/><SampleCounter/>".data).2.2.1
    "SampleCounter".data ?_ rfl
  decide

/-
Embedding of the dynamic module loads of classes/Vue.js.  The filesystem is
a boolean membership function on paths: `writeFileSync` sets the temp path
present, `unlinkSync` sets it absent.  The outcome of the dynamic `import`
is an oracle parameter; `Except.error` models generated source whose
module-level evaluation throws.
-/

/-- The modelled filesystem: which paths currently exist. -/
abbrev Fs := Str → Bool

/-- Embedding of `fs.writeFileSync` on the path component of the state. -/
def fsWrite (fs : Fs) (p : Str) : Fs := fun q => if q = p then true else fs q

/-- Embedding of `fs.unlinkSync`. -/
def fsUnlink (fs : Fs) (p : Str) : Fs := fun q => if q = p then false else fs q

/-- A thrown JavaScript error, carrying its message. -/
structure JsError where
  msg : String
  deriving DecidableEq

/-- The compiled server render function, opaque to the embedding. -/
structure RenderFn where
  fnId : Nat
  deriving DecidableEq

/-- A property value found on a loaded script module's default export. -/
inductive JsProp
  | func (fnId : Nat)
  | plain (objId : Nat)
  deriving DecidableEq

/-- The default export of a successfully evaluated script module. -/
structure ScriptModule where
  setupProp : Option JsProp
  propsProp : Option JsProp
  deriving DecidableEq

/-- The `typeof x = "function"` test on an optional property. -/
def isFuncProp : Option JsProp → Bool
  | some (JsProp.func _) => true
  | _ => false

/-- Embedding of the load block of `Vue.#compileTemplate` (classes/Vue.js
lines 204-211): write the generated code to the temp file and dynamically
load it inside a try block whose finally clause unlinks the temp file, and
return the module's `ssrRender` export; a throwing import propagates
unchanged after the cleanup. -/
def compileTemplateLoad (fs : Fs) (tmp : Str) (imported : Except JsError RenderFn) :
    Except JsError RenderFn × Fs :=
  let fsWritten := fsWrite fs tmp
  match imported with
  | Except.ok m => (Except.ok m, fsUnlink fsWritten tmp)
  | Except.error e => (Except.error e, fsUnlink fsWritten tmp)

/-- Embedding of the load block of `Vue.#extractScriptOptions` (classes/Vue.js
lines 233-246): write the compiled script to a temp file and import it under
try/catch/finally; the finally clause unlinks the temp file on every path,
and the catch clause swallows a throwing import, yielding null setup and
props.  `imported` is `Except.error` when module-level evaluation throws;
`Except.ok none` models a module without a default export. -/
def extractScriptLoad (fs : Fs) (tmp : Str)
    (imported : Except JsError (Option ScriptModule)) :
    Except JsError (Option JsProp × Option JsProp) × Fs :=
  let fsWritten := fsWrite fs tmp
  match imported with
  | Except.error _ => (Except.ok (none, none), fsUnlink fsWritten tmp)
  | Except.ok none => (Except.ok (none, none), fsUnlink fsWritten tmp)
  | Except.ok (some m) =>
      (Except.ok ((if isFuncProp m.setupProp then m.setupProp else none), m.propsProp),
        fsUnlink fsWritten tmp)

/-- Embedding of the surrounding control flow of `Vue.#extractScriptOptions`
(classes/Vue.js lines 221-247): with no script block, no temp file is ever
created and null setup and props are returned directly. -/
def extractScriptOptionsRun (fs : Fs) (tmp : Str) (script : Option Str)
    (imported : Except JsError (Option ScriptModule)) :
    Except JsError (Option JsProp × Option JsProp) × Fs :=
  match script with
  | none => (Except.ok (none, none), fs)
  | some _ => extractScriptLoad fs tmp imported

/-- C3: both dynamic loads of generated module code remove their backing
temporary file on every exit path: after the load block of either
`#compileTemplate` or `#extractScriptOptions` finishes — whether the
dynamic load returned a module or threw — the temporary file no longer
exists. -/
theorem temp_file_removed_on_every_path :
    (∀ (fs : Fs) (tmp : Str) (imported : Except JsError RenderFn),
        ((compileTemplateLoad fs tmp imported).2) tmp = false) ∧
    (∀ (fs : Fs) (tmp : Str) (imported : Except JsError (Option ScriptModule)),
        ((extractScriptLoad fs tmp imported).2) tmp = false) := by
  constructor
  · intro fs tmp imported
    cases imported <;> simp [compileTemplateLoad, fsUnlink]
  · intro fs tmp imported
    rcases imported with e | m
    · simp [extractScriptLoad, fsUnlink]
    · cases m <;> simp [extractScriptLoad, fsUnlink]

/-- Decide whether an exceptional result was produced. -/
def isErrE {ε α : Type} : Except ε α → Bool
  | Except.error _ => true
  | Except.ok _ => false

/-- C4 counterexample: a compiled script module whose top-level evaluation
throws is silently swallowed by the `#extractScriptOptions` load: the call
returns a successful result with null setup and props instead of failing
with any error (and no CompileExecutionError type exists in the source). -/
theorem throwing_script_load_swallowed :
    (extractScriptLoad (fun _ => false) "index.script.1.mjs".data
        (Except.error (JsError.mk "boom"))).1 = Except.ok (none, none) ∧
    isErrE (extractScriptLoad (fun _ => false) "index.script.1.mjs".data
        (Except.error (JsError.mk "boom"))).1 = false := ⟨rfl, rfl⟩

/-- C4 (amended): when dynamically loaded generated module source throws
during module-level evaluation, the template-module load surfaces the thrown
error unchanged (no CompileExecutionError wrapper exists), while the
script-options load catches it and succeeds with null setup and props; in
both cases the backing temporary file is removed. -/
theorem throwing_load_surfacing_amended :
    (∀ (fs : Fs) (tmp : Str) (e : JsError),
        (compileTemplateLoad fs tmp (Except.error e)).1 = Except.error e ∧
        ((compileTemplateLoad fs tmp (Except.error e)).2) tmp = false) ∧
    (∀ (fs : Fs) (tmp : Str) (e : JsError),
        (extractScriptLoad fs tmp (Except.error e)).1 = Except.ok (none, none) ∧
        ((extractScriptLoad fs tmp (Except.error e)).2) tmp = false) := by
  constructor
  · intro fs tmp e
    exact ⟨rfl, by simp [compileTemplateLoad, fsUnlink]⟩
  · intro fs tmp e
    exact ⟨rfl, by simp [extractScriptLoad, fsUnlink]⟩

/-
Shared substring machinery for the endpoint guard and the client-compile
rewrite: a boolean starts-with test and a boolean substring-occurrence test.
-/

/-- Does the second list start with the first? -/
def leadsWith : Str → Str → Bool
  | [], _ => true
  | _ :: _, [] => false
  | a :: as, b :: bs => a = b && leadsWith as bs

/-- Does `pat` occur as a contiguous substring of the text? -/
def occursB (pat : Str) : Str → Bool
  | [] => leadsWith pat []
  | c :: t => leadsWith pat (c :: t) || occursB pat t

/-
Embedding of the component-compilation endpoint guard (www/index.js lines
34-46).
-/

/-- The two outcomes of the endpoint guard: a 400 client error, or
proceeding to compile the SFC at the constructed path. -/
inductive EndpointStep
  | badRequest
  | compileAt (vuePath : Str)
  deriving DecidableEq

/-- Embedding of the guard of the `/ore/component.js` handler (www/index.js
lines 34-46): an empty id, an id containing the substring `..`, and an id
starting with `/` are rejected with 400 Bad Request; only otherwise is the
on-disk path `componentsRoot/<id>/index.vue` constructed. -/
def handleComponentRequest (root : Str) (compId : Str) : EndpointStep :=
  if compId.isEmpty || occursB "..".data compId || leadsWith "/".data compId then
    EndpointStep.badRequest
  else
    EndpointStep.compileAt (sfcPathJoin root compId)

/-- C9: every component id containing `..` or beginning with the path
separator is rejected with a client error before any file path is
constructed from it. -/
theorem traversal_ids_rejected (root : Str) (compId : Str)
    (h : occursB "..".data compId = true ∨ leadsWith "/".data compId = true) :
    handleComponentRequest root compId = EndpointStep.badRequest := by
  rcases h with h | h <;> simp [handleComponentRequest, h]

/-- Witness for C9 at the spec's two concrete attack identifiers. -/
theorem traversal_ids_rejected_witness :
    handleComponentRequest "components".data "../../etc/passwd".data =
      EndpointStep.badRequest ∧
    handleComponentRequest "components".data "/etc/passwd".data =
      EndpointStep.badRequest :=
  ⟨traversal_ids_rejected "components".data "../../etc/passwd".data (Or.inl (by decide)),
    traversal_ids_rejected "components".data "/etc/passwd".data (Or.inr (by decide))⟩

/-
Embedding of the default-export rewrite of `Vue.compileForClient`
(classes/Vue.js lines 315-326):

    scriptContent.replace(/export default\s+/, 'const __sfc__ = ')

a non-global replace of the first position matching the pattern.
-/

/-- The ASCII whitespace characters of the regex class `\s`. -/
def isWsJs (c : Char) : Bool :=
  c = ' ' || c = '\t' || c = '\n' || c = '\r' || c = '\x0b' || c = '\x0c'

/-- Is the head character whitespace? -/
def wsHead : Str → Bool
  | [] => false
  | c :: _ => isWsJs c

/-- Does the text begin with `export default` followed by at least one
whitespace character (the regex anchored at this position)? -/
def edAt (l : Str) : Bool :=
  leadsWith "export default".data l && wsHead (l.drop 14)

/-- Text remaining after the greedy match `export default\s+`. -/
def edConsume (l : Str) : Str := (l.drop 14).dropWhile isWsJs

/-- Embedding of the non-global replace: scan left to right and rewrite the
first matching position into the local `__sfc__` binding. -/
def rewriteDefaultExport : Str → Str
  | [] => []
  | c :: t =>
      if edAt (c :: t) then "const __sfc__ = ".data ++ edConsume (c :: t)
      else c :: rewriteDefaultExport t

/-- Does the pattern `export default\s+` match anywhere in the text? -/
def hasED : Str → Bool
  | [] => false
  | c :: t => edAt (c :: t) || hasED t

/-- The `scriptContent.includes('export default')` test of line 316. -/
def containsEDLit (l : Str) : Bool := occursB "export default".data l

/-- Embedding of the module assembly of `Vue.compileForClient` (classes/Vue.js
lines 315-326): with no script content, or script content not containing the
literal `export default`, ship only the render function; otherwise rewrite
the script and merge the render function into its default export. -/
def compileForClientAssemble (script : Option Str) (templateCode : Str) : Str :=
  match script with
  | none => templateCode ++ "\nexport default \x7b render \x7d".data
  | some s =>
      if containsEDLit s then
        rewriteDefaultExport s ++ '\n' :: templateCode ++
          "\nexport default Object.assign(__sfc__, \x7b render \x7d)".data
      else templateCode ++ "\nexport default \x7b render \x7d".data

/-- C7 counterexample: for script content whose first textual occurrence of
`export default` lies inside a string literal, the rewrite corrupts that
string literal and leaves the real default-export statement in place. -/
theorem rewrite_corrupts_string_literal :
    rewriteDefaultExport
        "const s = \"export default x\"\nexport default \x7b a: 1 \x7d".data =
      "const s = \"const __sfc__ = x\"\nexport default \x7b a: 1 \x7d".data ∧
    occursB "export default".data
        (rewriteDefaultExport
          "const s = \"export default x\"\nexport default \x7b a: 1 \x7d".data) = true :=
  ⟨by decide, by decide⟩

/-- C7 (amended): the rewrite replaces exactly one occurrence — the first
position, in textual order, at which `export default` followed by whitespace
matches — whether or not that position lies inside a string literal or
comment: text with no match is returned unchanged, a non-matching head
character is kept with the scan continuing on the tail, and a matching
position is rewritten to the local binding with the remainder untouched. -/
theorem rewrite_first_occurrence_amended :
    (∀ l : Str, hasED l = false → rewriteDefaultExport l = l) ∧
    (∀ (c : Char) (t : Str), edAt (c :: t) = false →
        rewriteDefaultExport (c :: t) = c :: rewriteDefaultExport t) ∧
    (∀ l : Str, edAt l = true →
        rewriteDefaultExport l = "const __sfc__ = ".data ++ edConsume l) := by
  refine ⟨?_, ?_, ?_⟩
  · intro l h
    induction l with
    | nil => rfl
    | cons c t ih =>
      have h1 : edAt (c :: t) = false := by
        cases he : edAt (c :: t)
        · rfl
        · rw [hasED, he] at h; simp at h
      have h2 : hasED t = false := by
        cases he : hasED t
        · rfl
        · rw [hasED, he] at h; simp at h
      simp only [rewriteDefaultExport, h1, Bool.false_eq_true, if_false, ih h2]
  · intro c t h
    simp only [rewriteDefaultExport, h, Bool.false_eq_true, if_false]
  · intro l h
    cases l with
    | nil => exact absurd h (by decide)
    | cons c t => simp only [rewriteDefaultExport, h, if_true]

/-- Witness for C7 (amended) at concrete inputs: no-match text is unchanged,
a non-matching head is skipped, and an anchored match is rewritten. -/
theorem rewrite_first_occurrence_witness :
    rewriteDefaultExport "const x = 1".data = "const x = 1".data ∧
    rewriteDefaultExport ('a' :: "export default x".data) =
      'a' :: rewriteDefaultExport "export default x".data ∧
    rewriteDefaultExport "export default x".data =
      "const __sfc__ = ".data ++ edConsume "export default x".data :=
  ⟨rewrite_first_occurrence_amended.1 "const x = 1".data (by decide),
    rewrite_first_occurrence_amended.2.1 'a' "export default x".data (by decide),
    rewrite_first_occurrence_amended.2.2 "export default x".data (by decide)⟩

/-
Embedding of `Vue.#document` (classes/Vue.js lines 330-369) and the
document-producing tail of `Vue.render` (lines 167-178).  The template
literal is embedded as explicit concatenation of its constant segments and
spliced values.  The `JSON.stringify` of the assignments is the opaque
input `stateJson`; the per-render `randomBytes(6).toString('hex')` draw is
the explicit input `instanceId`.
-/

/-- The apostrophe character (U+0027). -/
def quoteC : Char := Char.ofNat 39

/-- Uppercase hex digit for a value below 16, as percent-encoding emits. -/
def hexDigit (n : Nat) : Char :=
  if n < 10 then Char.ofNat (48 + n) else Char.ofNat (55 + n)

/-- The characters encodeURIComponent leaves unescaped. -/
def uriUnreserved (c : Char) : Bool :=
  isUpperAZ c || isLowerAZ c || isDigit09 c ||
    c = '-' || c = '_' || c = '.' || c = '!' || c = '~' || c = '*' ||
    c = quoteC || c = '(' || c = ')'

/-- Embedding of `encodeURIComponent` for the one-byte code points used by
the framework's identifiers. -/
def encodeURIComponentStr : Str → Str
  | [] => []
  | c :: t =>
      if uriUnreserved c then c :: encodeURIComponentStr t
      else '%' :: hexDigit (c.toNat / 16 % 16) :: hexDigit (c.toNat % 16) ::
        encodeURIComponentStr t

/-- Embedding of `Array.prototype.join('\n')`. -/
def joinNl : List Str → Str
  | [] => []
  | [s] => s
  | s :: rest => s ++ '\n' :: joinNl rest

/-- Embedding of `_vueCdnUrl` (classes/Vue.js lines 40-45) over the mode
read from package.json. -/
def vueCdnUrl (isProd : Bool) : Str :=
  if isProd then "https://esm.sh/vue@3.4".data else "https://esm.sh/vue@3.4?dev".data

/-- Embedding of the style concatenation of `Vue.#document` (line 331): each
style section of the **top-level descriptor** wrapped in a style element,
joined with newlines. -/
def renderedStyles (styles : List Str) : Str :=
  joinNl (styles.map fun s => "<style>".data ++ s ++ "</style>".data)

/-- One sub-component import line of the hydration script (line 336). -/
def subImportLine (s : SubComp) : Str :=
  "import ".data ++ s.compName ++ " from \x27/ore/component.js?c=".data ++
    encodeURIComponentStr s.folderId ++ "\x27".data

/-- The joined sub-component import lines (lines 335-337). -/
def subImports (subs : List SubComp) : Str := joinNl (subs.map subImportLine)

/-- One sub-component registration line of the hydration script (line 339). -/
def subRegLine (s : SubComp) : Str :=
  "app.component(\x27".data ++ s.compName ++ "\x27, ".data ++ s.compName ++ ")".data

/-- The joined sub-component registration lines (lines 338-340). -/
def subRegistrations (subs : List SubComp) : Str := joinNl (subs.map subRegLine)

/-- Embedding of the hydration bootstrap block (lines 342-353). -/
def hydrationScript (isProd : Bool) (componentId instanceId : Str)
    (subs : List SubComp) : Str :=
  "<script type=\"importmap\">\n\x7b\"imports\":\x7b\"vue\":\"".data ++
    vueCdnUrl isProd ++
    "\"\x7d\x7d\n</script>\n<script type=\"module\">\nimport \x7b createSSRApp, reactive \x7d from \x27vue\x27\nimport \x7b render \x7d from \x27/ore/component.js?c=".data ++
    encodeURIComponentStr componentId ++
    "\x27\n".data ++ subImports subs ++
    "\nconst state = reactive((window.__ORE_STATE__ || \x7b\x7d)[\x27".data ++
    instanceId ++
    "\x27] || \x7b\x7d)\nconst app = createSSRApp(\x7b render, setup() \x7b return state \x7d \x7d)\n".data ++
    subRegistrations subs ++
    "\napp.mount(\x27#ore-".data ++ instanceId ++ "\x27)\n</script>".data

/-- The document head up to the point where the style blocks are spliced. -/
def docSegA : Str := "<!DOCTYPE html>\n<html lang=\"en\">\n<head>\n  <meta charset=\"UTF-8\">\n  <meta name=\"viewport\" content=\"width=device-width, initial-scale=1.0\">\n  <link rel=\"stylesheet\" href=\"/css/main.css\">\n  ".data

/-- From after the style blocks to just before the state-entry key marker. -/
def docSegB : Str := "\n  <script>window.__ORE_STATE__ = window.__ORE_STATE__ || \x7b\x7d; window.".data

/-- The marker that introduces the per-instance state entry key. -/
def stateMarker : Str := "__ORE_STATE__[\x27".data

/-- Closes the state entry key and assigns the serialized state. -/
def docSegC : Str := "\x27] = ".data

/-- Closes the state script; the hydration block follows. -/
def docSegD : Str := ";</script>\n  ".data

/-- Closes the head and opens the per-instance mount node. -/
def docSegE : Str := "\n</head>\n<body>\n  <div id=\"ore-".data

/-- Closes the mount node id attribute. -/
def docSegF : Str := "\">".data

/-- Closes the mount node, the body and the document. -/
def docSegG : Str := "</div>\n</body>\n</html>".data

/-- Embedding of `Vue.#document`: the full HTML document for one render
instance. -/
def documentHtml (isProd : Bool) (body : Str) (styles : List Str)
    (stateJson componentId instanceId : Str) (subs : List SubComp) : Str :=
  docSegA ++ renderedStyles styles ++ docSegB ++ stateMarker ++ instanceId ++
    docSegC ++ stateJson ++ docSegD ++
    hydrationScript isProd componentId instanceId subs ++
    docSegE ++ instanceId ++ docSegF ++ body ++ docSegG

/-- A parsed SFC descriptor as far as the document assembler is concerned. -/
structure SfcDescriptor where
  styleSections : List Str
  deriving DecidableEq

/-- A resolved sub-component together with its parsed descriptor:
`Vue.render` passes only the reference entry (name, folder id, path) to the
document assembler, while the descriptor parsed in `#buildSubComponent` is
consumed solely for its render function, setup and props. -/
structure ResolvedSub where
  entry : SubComp
  desc : SfcDescriptor
  deriving DecidableEq

/-- Embedding of the document-producing tail of `Vue.render` (classes/Vue.js
lines 167-178): the document is assembled from the SSR body, the top-level
descriptor, the serialized assignments, the component identifier, the drawn
instance identifier, and the resolved sub-component entries. -/
def renderDocument (isProd : Bool) (top : SfcDescriptor) (subs : List ResolvedSub)
    (body stateJson componentId instanceId : Str) : Str :=
  documentHtml isProd body top.styleSections stateJson componentId instanceId
    (subs.map ResolvedSub.entry)

/-- Written from the claim's words (C2): the page style blocks as the
concatenation of every rendered component's style sections — the top-level
(server) component's first, then each resolved sub-component's in
resolution order. -/
def claimedStyleBlocks (top : SfcDescriptor) (subs : List ResolvedSub) : Str :=
  renderedStyles (top.styleSections ++ subs.flatMap fun s => s.desc.styleSections)

/-- The text after the first occurrence of `pat` in the text, if any. -/
def afterFirst (pat : Str) : Str → Option Str
  | [] => if leadsWith pat [] then some [] else none
  | c :: t =>
      if leadsWith pat (c :: t) then some ((c :: t).drop pat.length)
      else afterFirst pat t

/-- The key under which a document stores its state-blob entry: the text
between the first state-entry marker and the next closing quote. -/
def extractStateKey (doc : Str) : Option Str :=
  (afterFirst stateMarker doc).map fun r => r.takeWhile fun c => !(c == quoteC)

theorem leadsWith_self_append (pat b : Str) : leadsWith pat (pat ++ b) = true := by
  induction pat with
  | nil => rfl
  | cons c t ih =>
    show leadsWith (c :: t) (c :: (t ++ b)) = true
    simp [leadsWith, ih]

theorem occursB_of_leadsWith (pat l : Str) (h : leadsWith pat l = true) :
    occursB pat l = true := by
  cases l with
  | nil => exact h
  | cons c t =>
    show (leadsWith pat (c :: t) || occursB pat t) = true
    rw [h]
    rfl

theorem occursB_append_self (pat a b : Str) : occursB pat (a ++ (pat ++ b)) = true := by
  induction a with
  | nil =>
    simp only [List.nil_append]
    exact occursB_of_leadsWith pat (pat ++ b) (leadsWith_self_append pat b)
  | cons c t ih =>
    show (leadsWith pat (c :: (t ++ (pat ++ b))) || occursB pat (t ++ (pat ++ b))) = true
    rw [ih]
    simp

theorem dropStr_append_of_le (i : Nat) (a b : Str) (h : i ≤ a.length) :
    List.drop i (a ++ b) = List.drop i a ++ b := by
  induction a generalizing i with
  | nil =>
    have h0 : i = 0 := by simpa using h
    subst h0; rfl
  | cons c t ih =>
    cases i with
    | zero => rfl
    | succ j =>
      show List.drop (j + 1) (c :: (t ++ b)) = List.drop (j + 1) (c :: t) ++ b
      simp only [List.drop_succ_cons]
      exact ih j (by simpa using h)

theorem drop_len_append (a b : Str) : List.drop a.length (a ++ b) = b := by
  induction a with
  | nil => rfl
  | cons c t ih =>
    show List.drop (c :: t).length (c :: (t ++ b)) = b
    simp only [List.length_cons, List.drop_succ_cons]
    exact ih

theorem leadsWith_append_of_le (pat l r : Str) (h : pat.length ≤ l.length) :
    leadsWith pat (l ++ r) = leadsWith pat l := by
  induction pat generalizing l with
  | nil => rfl
  | cons p ps ih =>
    cases l with
    | nil => simp at h
    | cons c t =>
      show leadsWith (p :: ps) (c :: (t ++ r)) = leadsWith (p :: ps) (c :: t)
      simp only [leadsWith]
      rw [ih t (by simpa using h)]

theorem leadsWith_false_of_head_notin (pat : Str) (p : Char) (ps : Str)
    (hpat : pat = p :: ps) (a : Str) : ∀ (b : Str),
    a.all (fun c => !(c == p)) = true →
    ∀ i < a.length, leadsWith pat (List.drop i (a ++ b)) = false := by
  subst hpat
  induction a with
  | nil => intro b _ i hi; simp at hi
  | cons c t ih =>
    intro b hall i hi
    simp only [List.all_cons, Bool.and_eq_true] at hall
    cases i with
    | zero =>
      show leadsWith (p :: ps) (c :: (t ++ b)) = false
      have hne : c ≠ p := by
        have h1 : (c == p) = false := by
          cases hcc : c == p
          · rfl
          · rw [hcc] at hall; simp at hall
        exact (beq_eq_false_iff_ne (a := c) (b := p)).mp h1
      have hd : decide (p = c) = false := decide_eq_false fun he => hne he.symm
      simp [leadsWith, hd]
    | succ j =>
      show leadsWith (p :: ps) (List.drop (j + 1) (c :: (t ++ b))) = false
      simp only [List.drop_succ_cons]
      exact ih b hall.2 j (by simpa using hi)

theorem leadsWith_false_extend (pat a r : Str)
    (h : ∀ i < a.length, leadsWith pat (List.drop i (a ++ pat)) = false) :
    ∀ i < a.length, leadsWith pat (List.drop i (a ++ (pat ++ r))) = false := by
  intro i hi
  have h1 : List.drop i (a ++ (pat ++ r)) = (List.drop i a ++ pat) ++ r := by
    rw [dropStr_append_of_le i a (pat ++ r) (le_of_lt hi), ← List.append_assoc]
  have h2 : pat.length ≤ (List.drop i a ++ pat).length := by
    rw [List.length_append]; omega
  rw [h1, leadsWith_append_of_le pat _ r h2,
    ← dropStr_append_of_le i a pat (le_of_lt hi)]
  exact h i hi

theorem afterFirst_skip (pat : Str) : ∀ (a b : Str),
    (∀ i < a.length, leadsWith pat (List.drop i (a ++ b)) = false) →
    afterFirst pat (a ++ b) = afterFirst pat b := by
  intro a
  induction a with
  | nil => intro b _; rfl
  | cons c t ih =>
    intro b h
    have h0 : leadsWith pat (c :: (t ++ b)) = false := by simpa using h 0 (by simp)
    show afterFirst pat (c :: (t ++ b)) = afterFirst pat b
    simp only [afterFirst, h0, Bool.false_eq_true, if_false]
    refine ih b fun i hi => ?_
    have := h (i + 1) (by simp only [List.length_cons]; omega)
    simpa using this

theorem afterFirst_self (pat b : Str) (p : Char) (ps : Str) (hpat : pat = p :: ps) :
    afterFirst pat (pat ++ b) = some b := by
  subst hpat
  show afterFirst (p :: ps) (p :: (ps ++ b)) = some b
  have h1 : leadsWith (p :: ps) (p :: (ps ++ b)) = true := leadsWith_self_append (p :: ps) b
  simp only [afterFirst, h1, if_true]
  congr 1
  show List.drop (p :: ps).length (p :: (ps ++ b)) = b
  simp only [List.length_cons, List.drop_succ_cons]
  exact drop_len_append ps b

theorem takeWhile_append_all (p : Char → Bool) : ∀ (x y : Str), x.all p = true →
    (x ++ y).takeWhile p = x ++ y.takeWhile p := by
  intro x
  induction x with
  | nil => intro y _; rfl
  | cons c t ih =>
    intro y h
    simp only [List.all_cons, Bool.and_eq_true] at h
    show List.takeWhile p (c :: (t ++ y)) = (c :: t) ++ List.takeWhile p y
    simp only [List.takeWhile_cons, h.1, if_true, List.cons_append]
    rw [ih y h.2]

theorem takeWhile_docSegC (z : Str) :
    List.takeWhile (fun c => !(c == quoteC)) (docSegC ++ z) = [] := by
  have h : docSegC = quoteC :: "] = ".data := by decide
  rw [h]
  rfl

theorem docSegB_no_marker :
    ∀ i < docSegB.length, leadsWith stateMarker (List.drop i (docSegB ++ stateMarker)) = false := by
  decide

theorem extract_key_of_document (isProd : Bool) (body : Str) (styles : List Str)
    (stateJson cid iid : Str) (subs : List SubComp)
    (hstyles : (renderedStyles styles).all (fun c => !(c == '_')) = true)
    (hiid : iid.all (fun c => !(c == quoteC)) = true) :
    extractStateKey (documentHtml isProd body styles stateJson cid iid subs) = some iid := by
  have hA : docSegA.all (fun c => !(c == '_')) = true := by decide
  have hm : stateMarker = '_' :: stateMarker.tail := by decide
  have hdoc : documentHtml isProd body styles stateJson cid iid subs =
      docSegA ++ (renderedStyles styles ++ (docSegB ++ (stateMarker ++
        (iid ++ (docSegC ++ (stateJson ++ (docSegD ++
          (hydrationScript isProd cid iid subs ++ (docSegE ++ (iid ++ (docSegF ++
            (body ++ docSegG)))))))))))) := by
    simp [documentHtml, List.append_assoc]
  rw [extractStateKey, hdoc]
  rw [afterFirst_skip stateMarker docSegA _
    (leadsWith_false_of_head_notin stateMarker '_' stateMarker.tail hm docSegA _ hA)]
  rw [afterFirst_skip stateMarker (renderedStyles styles) _
    (leadsWith_false_of_head_notin stateMarker '_' stateMarker.tail hm
      (renderedStyles styles) _ hstyles)]
  rw [afterFirst_skip stateMarker docSegB _
    (leadsWith_false_extend stateMarker docSegB _ docSegB_no_marker)]
  rw [afterFirst_self stateMarker _ '_' stateMarker.tail hm]
  simp only [Option.map_some']
  rw [takeWhile_append_all _ iid _ hiid, takeWhile_docSegC, List.append_nil]

/-- Concrete top-level descriptor used by the concrete renders below. -/
def ceTop : SfcDescriptor := SfcDescriptor.mk ["h1\x7bcolor:blue\x7d".data]

/-- Concrete resolved sub-component carrying its own style section. -/
def ceSub : ResolvedSub :=
  ResolvedSub.mk
    (SubComp.mk "SampleCounter".data "sample-counter".data
      (sfcPathJoin "components".data "sample-counter".data))
    (SfcDescriptor.mk ["p\x7bcolor:red\x7d".data])

set_option maxRecDepth 40000 in
/-- C2 counterexample: for a render whose resolved sub-component carries a
style section, the produced document does not contain that sub-component's
style text anywhere, while the claimed concatenation of every rendered
component's style sections does contain it. -/
theorem sub_styles_missing_counterexample :
    occursB "p\x7bcolor:red\x7d".data
        (renderDocument false ceTop [ceSub] "<p>0</p>".data "\x7b\x7d".data
          "test".data "aabbccddeeff".data) = false ∧
    occursB "p\x7bcolor:red\x7d".data (claimedStyleBlocks ceTop [ceSub]) = true :=
  ⟨by decide, by decide⟩

/-- C2 (amended): the produced document's style blocks are the concatenation
of the top-level (server) component's style sections only, in order; the
style sections of resolved sub-components never reach the assembler — the
document depends only on the sub-components' reference entries. -/
theorem document_styles_top_only (isProd : Bool) (top : SfcDescriptor)
    (subs : List ResolvedSub) (body stateJson cid iid : Str) :
    occursB (renderedStyles top.styleSections)
        (renderDocument isProd top subs body stateJson cid iid) = true ∧
    (∀ subsB : List ResolvedSub,
        subs.map ResolvedSub.entry = subsB.map ResolvedSub.entry →
        renderDocument isProd top subs body stateJson cid iid =
          renderDocument isProd top subsB body stateJson cid iid) := by
  constructor
  · simp only [renderDocument, documentHtml, List.append_assoc]
    exact occursB_append_self (renderedStyles top.styleSections) docSegA _
  · intro subsB h
    simp only [renderDocument, h]

/-- Witness for C2 (amended): at the concrete render, the top-level style
block occurs in the document, and dropping the sub-component's style
sections leaves the document unchanged. -/
theorem document_styles_top_only_witness :
    occursB (renderedStyles ceTop.styleSections)
        (renderDocument false ceTop [ceSub] "<p>0</p>".data "\x7b\x7d".data
          "test".data "aabbccddeeff".data) = true ∧
    renderDocument false ceTop [ceSub] "<p>0</p>".data "\x7b\x7d".data
        "test".data "aabbccddeeff".data =
      renderDocument false ceTop [ResolvedSub.mk ceSub.entry (SfcDescriptor.mk [])]
        "<p>0</p>".data "\x7b\x7d".data "test".data "aabbccddeeff".data :=
  ⟨(document_styles_top_only false ceTop [ceSub] "<p>0</p>".data "\x7b\x7d".data
      "test".data "aabbccddeeff".data).1,
    (document_styles_top_only false ceTop [ceSub] "<p>0</p>".data "\x7b\x7d".data
      "test".data "aabbccddeeff".data).2
      [ResolvedSub.mk ceSub.entry (SfcDescriptor.mk [])] rfl⟩

/-- C8 (amended): provided the two sequential renders draw distinct instance
identifiers from the random-bytes source — which holds with overwhelming
probability for independent 6-byte draws — the two produced documents carry
different render-instance identifiers and their embedded state-blob entries
are stored under non-colliding keys of the page-global state mapping: each
document's state entry key is exactly its own draw. -/
theorem distinct_draws_distinct_state_keys (isProd : Bool) (top : SfcDescriptor)
    (subs : List ResolvedSub) (body1 body2 state1 state2 cid iid1 iid2 : Str)
    (hdiff : iid1 ≠ iid2)
    (hstyles : (renderedStyles top.styleSections).all (fun c => !(c == '_')) = true)
    (hq1 : iid1.all (fun c => !(c == quoteC)) = true)
    (hq2 : iid2.all (fun c => !(c == quoteC)) = true) :
    extractStateKey (renderDocument isProd top subs body1 state1 cid iid1) = some iid1 ∧
    extractStateKey (renderDocument isProd top subs body2 state2 cid iid2) = some iid2 ∧
    extractStateKey (renderDocument isProd top subs body1 state1 cid iid1) ≠
      extractStateKey (renderDocument isProd top subs body2 state2 cid iid2) := by
  have h1 := extract_key_of_document isProd body1 top.styleSections state1 cid iid1
    (subs.map ResolvedSub.entry) hstyles hq1
  have h2 := extract_key_of_document isProd body2 top.styleSections state2 cid iid2
    (subs.map ResolvedSub.entry) hstyles hq2
  refine ⟨h1, h2, ?_⟩
  intro he
  rw [renderDocument] at he
  rw [renderDocument] at he
  rw [h1, h2] at he
  exact hdiff (Option.some.inj he)

/-- Witness for C8 (amended) at two concrete distinct draws. -/
theorem distinct_draws_witness :
    extractStateKey (renderDocument false ceTop [ceSub] "<p>1</p>".data
        "\x7b\"n\":1\x7d".data "test".data "aabbccddeeff".data) =
      some "aabbccddeeff".data ∧
    extractStateKey (renderDocument false ceTop [ceSub] "<p>2</p>".data
        "\x7b\"n\":2\x7d".data "test".data "001122334455".data) =
      some "001122334455".data ∧
    extractStateKey (renderDocument false ceTop [ceSub] "<p>1</p>".data
        "\x7b\"n\":1\x7d".data "test".data "aabbccddeeff".data) ≠
      extractStateKey (renderDocument false ceTop [ceSub] "<p>2</p>".data
        "\x7b\"n\":2\x7d".data "test".data "001122334455".data) :=
  distinct_draws_distinct_state_keys false ceTop [ceSub] "<p>1</p>".data "<p>2</p>".data
    "\x7b\"n\":1\x7d".data "\x7b\"n\":2\x7d".data "test".data
    "aabbccddeeff".data "001122334455".data
    (by decide) (by decide) (by decide) (by decide)

/-- C8 counterexample: the render-instance identifier is the value drawn
from the random-bytes source; at the concrete draw in which both sequential
renders of the same component receive the same six bytes — possible, though
overwhelmingly improbable — the two documents carry the same identifier and
both state-blob entries use the same key of the page-global mapping, so the
unconditional distinctness claim fails. -/
theorem same_draw_state_keys_collide :
    extractStateKey (renderDocument false ceTop [ceSub] "<p>1</p>".data
        "\x7b\"n\":1\x7d".data "test".data "aabbccddeeff".data) =
      extractStateKey (renderDocument false ceTop [ceSub] "<p>2</p>".data
        "\x7b\"n\":2\x7d".data "test".data "aabbccddeeff".data) ∧
    extractStateKey (renderDocument false ceTop [ceSub] "<p>1</p>".data
        "\x7b\"n\":1\x7d".data "test".data "aabbccddeeff".data) =
      some "aabbccddeeff".data := by
  have h1 := extract_key_of_document false "<p>1</p>".data ceTop.styleSections
    "\x7b\"n\":1\x7d".data "test".data "aabbccddeeff".data
    ([ceSub].map ResolvedSub.entry) (by decide) (by decide)
  have h2 := extract_key_of_document false "<p>2</p>".data ceTop.styleSections
    "\x7b\"n\":2\x7d".data "test".data "aabbccddeeff".data
    ([ceSub].map ResolvedSub.entry) (by decide) (by decide)
  exact ⟨h1.trans h2.symm, h1⟩
